import Mathlib

/-!
Shallow embedding of the Eunoia document-to-text extraction pipeline
(`src/lib/text-extraction.ts`, the `Assessment` component's extraction
handlers, and `components/OcrZoneSelector.tsx`).

JS numbers are modelled by `ℚ` (exact arithmetic); `Math.round`,
`Math.abs`, `Number.toFixed(2)` and `String.trim` are embedded below.
The external pdf.js / Tesseract services are modelled by their responses:
a PDF page is the list of text items the parsing service returns for it,
and a recognition call is the (trimmed) text the service resolves with;
fallible service calls are `Except String` responses.
-/

namespace Eunoia

attribute [local semireducible] Rat.add Rat.mul Rat.sub Rat.inv Rat.ofScientific

/-! ## JS primitives -/

/-- JS `String.prototype.trim()`: strip leading and trailing whitespace. -/
def jsTrim (s : String) : String :=
  String.mk (((s.data.dropWhile Char.isWhitespace).reverse.dropWhile Char.isWhitespace).reverse)

/-- JS `Math.abs`. -/
def jsAbs (q : ℚ) : ℚ := if q < 0 then -q else q

/-- JS `Math.round`: round half toward positive infinity. -/
def jsRound (q : ℚ) : ℤ := (q + 1/2).floor

/-- JS `Number(v.toFixed(2))` for `v ≥ 0`: round to the nearest hundredth,
ties upward. -/
def toFixed2 (v : ℚ) : ℚ := ((100 * v + 1/2).floor : ℚ) / 100

/-! ## Data model (`text-extraction.ts` types) -/

/-- A pdf.js text-content item; `str` is `some` iff the item has a `str`
field (the code keeps `""` otherwise). -/
structure PdfTextItem where
  str : Option String
deriving DecidableEq

/-- The string contribution of one pdf.js item: `"str" in item ? item.str : ""`. -/
def pdfItemStr (it : PdfTextItem) : String := it.str.getD ""

/-- `ExtractionProgress` from `text-extraction.ts`. -/
structure ExtractionProgress where
  status : String
  progress : ℤ
deriving DecidableEq

/-- `NormalizedOcrZone` from `text-extraction.ts`: percentage coordinates. -/
structure NormalizedOcrZone where
  x : ℚ
  y : ℚ
  width : ℚ
  height : ℚ
deriving DecidableEq

/-! ## PDF document extraction (`extractTextFromPdf`) -/

/-- One page's text: `items.map(i => "str" in i ? i.str : "").join(" ")`, trimmed. -/
def pdfPageText (items : List PdfTextItem) : String :=
  jsTrim (String.intercalate " " (items.map pdfItemStr))

/-- The status label reported after a page: `กำลังอ่านข้อความจากหน้า p/n`. -/
def pdfPageStatus (pageNum numPages : ℕ) : String :=
  "กำลังอ่านข้อความจากหน้า " ++ toString pageNum ++ "/" ++ toString numPages

/-- The progress percentage after a page: `Math.round(pageNum / numPages * 100)`. -/
def pdfProgressValue (pageNum numPages : ℕ) : ℤ :=
  jsRound ((pageNum : ℚ) / (numPages : ℚ) * 100)

/-- The page loop of `extractTextFromPdf`: collect each page's trimmed text
and the progress event emitted after that page completes. -/
def extractPdfPagesLoop (numPages pageNum : ℕ) :
    List (List PdfTextItem) → List String × List ExtractionProgress
  | [] => ([], [])
  | items :: rest =>
    let r := extractPdfPagesLoop numPages (pageNum + 1) rest
    (pdfPageText items :: r.1,
     ⟨pdfPageStatus pageNum numPages, pdfProgressValue pageNum numPages⟩ :: r.2)

/-- `extractTextFromPdf`, with the parsing service's per-page responses given
as input: returns the final text and the emitted progress events. -/
def extractTextFromPdf (pages : List (List PdfTextItem)) :
    String × List ExtractionProgress :=
  let r := extractPdfPagesLoop pages.length 1 pages
  (jsTrim (String.intercalate "\n\n" r.1), r.2)

/-- The page loop of `extractTextFromPdf` when the parsing service may fail:
a rejected page text-layer request aborts the loop with that error. -/
def extractPdfPagesLoopE :
    List (Except String (List PdfTextItem)) → Except String (List String)
  | [] => .ok []
  | .error e :: _ => .error e
  | .ok items :: rest =>
    match extractPdfPagesLoopE rest with
    | .error e => .error e
    | .ok texts => .ok (pdfPageText items :: texts)

/-- `extractTextFromPdf` over fallible page responses: any service failure
propagates; otherwise the page texts are joined by blank lines and trimmed. -/
def extractTextFromPdfE (responses : List (Except String (List PdfTextItem))) :
    Except String String :=
  match extractPdfPagesLoopE responses with
  | .error e => .error e
  | .ok texts => .ok (jsTrim (String.intercalate "\n\n" texts))

/-! ## Text accumulator (`Assessment.appendExtractedText`) -/

/-- `appendExtractedText`: `none` models the `"ไม่พบข้อความใหม่"` toast
("no new text found") with the buffer left untouched; `some b` models
`setText` to the new buffer `b`. -/
def appendExtractedText (prev extracted : String) : Option String :=
  if extracted = "" then none
  else if jsTrim prev = "" then some extracted
  else some (jsTrim prev ++ "\n\n" ++ extracted)

/-- The buffer after `appendExtractedText` runs (unchanged on the
"no text" outcome). -/
def applyAppend (prev extracted : String) : String :=
  (appendExtractedText prev extracted).getD prev

/-- `handlePdfUpload` after the file checks: run the extraction, swallow a
service failure in `catch` (buffer untouched), treat `""` as the
"no text in PDF" outcome (buffer untouched), else append. -/
def handlePdfUpload (buffer : String)
    (responses : List (Except String (List PdfTextItem))) : String :=
  match extractTextFromPdfE responses with
  | .error _ => buffer
  | .ok extracted => if extracted = "" then buffer else applyAppend buffer extracted

/-! ## Zone-sequence extraction (`Assessment.handleExtractSelectedZones`) -/

/-- The labeled fragment recorded for a non-empty zone result:
`พื้นที่ <i>: <text>` ("Area <i>: <text>"). -/
def zoneLabel (n : ℕ) (text : String) : String :=
  "พื้นที่ " ++ toString n ++ ": " ++ text

/-- The zone loop of `handleExtractSelectedZones`, `n` the 1-based number of
the next zone: each recognition response is awaited in order; a rejection
aborts the job, a non-empty text records its labeled fragment. -/
def runZoneLoop (n : ℕ) :
    List (Except String String) → Except String (List String)
  | [] => .ok []
  | .error e :: _ => .error e
  | .ok t :: rest =>
    match runZoneLoop (n + 1) rest with
    | .error e => .error e
    | .ok frags => .ok (if t = "" then frags else zoneLabel n t :: frags)

/-- The four observable outcomes of `handleExtractSelectedZones`: the
precondition toast, the `catch` toast, the "no text from the selected
areas" toast, and a successful extraction. -/
inductive ZoneExtractOutcome where
  | precondFailed
  | serviceFailed (e : String)
  | noTextFound
  | extracted (combined : String)
deriving DecidableEq

/-- `handleExtractSelectedZones`: guard (`!ocrImageElement || !ocrZones.length`),
then the zone loop, then join the fragments with blank lines, trim, and
either report "no text" or append to the buffer. Returns the outcome and
the resulting text buffer. -/
def handleExtractSelectedZones (imageLoaded : Bool) (buffer : String)
    (responses : List (Except String String)) : ZoneExtractOutcome × String :=
  if !imageLoaded || responses.isEmpty then (.precondFailed, buffer)
  else
    match runZoneLoop 1 responses with
    | .error e => (.serviceFailed e, buffer)
    | .ok frags =>
      let combined := jsTrim (String.intercalate "\n\n" frags)
      if combined = "" then (.noTextFound, buffer)
      else (.extracted combined, applyAppend buffer combined)

/-! ## Geometry normalizer (`OcrZoneSelector`) -/

/-- `clamp` from `OcrZoneSelector.tsx`: `Math.min(Math.max(value, 0), 100)`. -/
def clamp (value : ℚ) : ℚ := min (max value 0) 100

/-- `MIN_ZONE_SIZE` (percentage). -/
def MIN_ZONE_SIZE : ℚ := 1

/-- `getRelativePosition`: the pointer position in percentage coordinates,
clamped per axis to `[0, 100]`. -/
def getRelativePosition (p : ℚ × ℚ) : ℚ × ℚ := (clamp p.1, clamp p.2)

/-- The rectangle `handlePointerMove` derives from the (clamped) origin and
current points: top-left is the per-axis `min`, size the absolute difference. -/
def handlePointerMoveRect (origin current : ℚ × ℚ) : NormalizedOcrZone :=
  ⟨min origin.1 current.1, min origin.2 current.2,
   jsAbs (current.1 - origin.1), jsAbs (current.2 - origin.2)⟩

/-- The draft zone produced by a press at `press` followed by a move to
`move` (both raw pointer positions, clamped by `getRelativePosition`). -/
def pointerDraft (press move : ℚ × ℚ) : NormalizedOcrZone :=
  handlePointerMoveRect (getRelativePosition press) (getRelativePosition move)

/-- The zone passed to `onAddZone`: every coordinate through
`Number(v.toFixed(2))`. -/
def toFixedZone (z : NormalizedOcrZone) : NormalizedOcrZone :=
  ⟨toFixed2 z.x, toFixed2 z.y, toFixed2 z.width, toFixed2 z.height⟩

/-- `handlePointerUp`'s commit decision: a draft below `MIN_ZONE_SIZE` on
either axis is dropped; otherwise the rounded zone is committed. -/
def commitDraft (draft : NormalizedOcrZone) : Option NormalizedOcrZone :=
  if MIN_ZONE_SIZE ≤ draft.width ∧ MIN_ZONE_SIZE ≤ draft.height
  then some (toFixedZone draft) else none

/-! ## Zone registry (`Assessment` zone state) -/

/-- The `ocrZones` state plus a fresh-id supply. `createZoneId` returns a
fresh UUID; it is modelled by a counter that has never been used. -/
structure OcrZoneRegistry where
  zones : List (ℕ × NormalizedOcrZone)
  nextId : ℕ
deriving DecidableEq

/-- `handleAddZone`: append the zone with a fresh id at the end. -/
def handleAddZone (s : OcrZoneRegistry) (z : NormalizedOcrZone) : OcrZoneRegistry :=
  ⟨s.zones ++ [(s.nextId, z)], s.nextId + 1⟩

/-- The registry add operation as driven by `handlePointerUp`: commit the
draft if it meets the minimum size, else leave the registry unchanged. -/
def handlePointerUpCommit (s : OcrZoneRegistry) (draft : NormalizedOcrZone) :
    OcrZoneRegistry :=
  match commitDraft draft with
  | some z => handleAddZone s z
  | none => s

/-- `handleRemoveZone`: `zones.filter(zone => zone.id !== id)`. -/
def handleRemoveZone (s : OcrZoneRegistry) (id : ℕ) : OcrZoneRegistry :=
  ⟨s.zones.filter (fun p => p.1 != id), s.nextId⟩

/-! ## Region rasterizer (`extractTextFromImageZone`) -/

/-- `clampPercentage` from `text-extraction.ts`. -/
def clampPercentage (value : ℚ) : ℚ := min (max value 0) 100

/-- `normalizeZone`: clamp every coordinate to `[0, 100]`, then re-clamp
the size so the zone stays inside the image. -/
def normalizeZone (zone : NormalizedOcrZone) : NormalizedOcrZone :=
  let x := clampPercentage zone.x
  let y := clampPercentage zone.y
  let width := clampPercentage zone.width
  let height := clampPercentage zone.height
  ⟨x, y, min width (100 - x), min height (100 - y)⟩

/-- The source rectangle `extractTextFromImageZone` hands to `drawImage`:
pixel origin and output size per axis. -/
structure ZoneCrop where
  startX : ℤ
  startY : ℤ
  outputWidth : ℤ
  outputHeight : ℤ
deriving DecidableEq

/-- The pixel-crop computation of `extractTextFromImageZone`: `none` models
the `"รูปภาพยังโหลดไม่เสร็จ"` throw when the image has no decoded size. -/
def extractZoneCrop (naturalWidth naturalHeight : ℕ) (zone : NormalizedOcrZone) :
    Option ZoneCrop :=
  if naturalWidth = 0 ∨ naturalHeight = 0 then none
  else
    let nz := normalizeZone zone
    let startXPx := jsRound (nz.x / 100 * naturalWidth)
    let startYPx := jsRound (nz.y / 100 * naturalHeight)
    let selectionWidthPx := max 1 (jsRound (nz.width / 100 * naturalWidth))
    let selectionHeightPx := max 1 (jsRound (nz.height / 100 * naturalHeight))
    let availableWidth := max 1 ((naturalWidth : ℤ) - startXPx)
    let availableHeight := max 1 ((naturalHeight : ℤ) - startYPx)
    some ⟨startXPx, startYPx,
          min selectionWidthPx availableWidth,
          min selectionHeightPx availableHeight⟩


/-! ## Helper lemmas -/

theorem ratFloor_eq_floor (q : ℚ) : Rat.floor q = ⌊q⌋ := rfl

theorem jsAbs_nonneg (q : ℚ) : 0 ≤ jsAbs q := by
  unfold jsAbs; split <;> linarith

theorem jsAbs_le {q m : ℚ} (h1 : -m ≤ q) (h2 : q ≤ m) : jsAbs q ≤ m := by
  unfold jsAbs; split <;> linarith

theorem min_add_jsAbs_sub (a b : ℚ) : min a b + jsAbs (b - a) = max a b := by
  unfold jsAbs
  rcases le_or_lt a b with hab | hba
  · rw [if_neg (by linarith), min_eq_left hab, max_eq_right hab]; ring
  · rw [if_pos (by linarith), min_eq_right hba.le, max_eq_left hba.le]; ring

theorem clamp_nonneg (v : ℚ) : 0 ≤ clamp v :=
  le_min (le_max_right v 0) (by norm_num)

theorem clamp_le_100 (v : ℚ) : clamp v ≤ 100 := min_le_right _ _

theorem clampPercentage_nonneg (v : ℚ) : 0 ≤ clampPercentage v :=
  le_min (le_max_right v 0) (by norm_num)

theorem clampPercentage_le_100 (v : ℚ) : clampPercentage v ≤ 100 := min_le_right _ _

theorem toFixed2_nonneg {v : ℚ} (h : 0 ≤ v) : 0 ≤ toFixed2 v := by
  unfold toFixed2
  rw [ratFloor_eq_floor]
  have h0 : (0 : ℤ) ≤ ⌊100 * v + 1/2⌋ := by
    rw [Int.le_floor]; push_cast; linarith
  have h1 : (0 : ℚ) ≤ ((⌊100 * v + 1/2⌋ : ℤ) : ℚ) := by exact_mod_cast h0
  exact div_nonneg h1 (by norm_num)

theorem toFixed2_le_100 {v : ℚ} (h : v ≤ 100) : toFixed2 v ≤ 100 := by
  unfold toFixed2
  rw [ratFloor_eq_floor]
  have h0 : ⌊100 * v + 1/2⌋ ≤ ⌊(100 : ℚ) * 100 + 1/2⌋ := Int.floor_mono (by linarith)
  have h1 : ⌊(100 : ℚ) * 100 + 1/2⌋ = 10000 := by norm_num
  rw [div_le_iff₀ (by norm_num : (0:ℚ) < 100)]
  calc ((⌊100 * v + 1/2⌋ : ℤ) : ℚ) ≤ ((10000 : ℤ) : ℚ) := by exact_mod_cast h0.trans h1.le
  _ = 100 * 100 := by norm_num

theorem toFixed2_le_add (v : ℚ) : toFixed2 v ≤ v + 1/200 := by
  unfold toFixed2
  rw [ratFloor_eq_floor]
  have h0 : ((⌊100 * v + 1/2⌋ : ℤ) : ℚ) ≤ 100 * v + 1/2 := Int.floor_le _
  rw [div_le_iff₀ (by norm_num : (0:ℚ) < 100)]
  linarith

theorem jsRound_nonneg {q : ℚ} (h : 0 ≤ q) : 0 ≤ jsRound q := by
  unfold jsRound
  rw [ratFloor_eq_floor, Int.le_floor]
  push_cast
  linarith

theorem jsRound_le_int {q : ℚ} {m : ℤ} (h : q ≤ (m : ℚ)) : jsRound q ≤ m := by
  unfold jsRound
  rw [ratFloor_eq_floor]
  have h0 : ⌊q + 1/2⌋ ≤ ⌊(m : ℚ) + 1/2⌋ := Int.floor_mono (by linarith)
  have h1 : ⌊(m : ℚ) + 1/2⌋ = m := by
    rw [Int.floor_int_add]
    norm_num
  omega

theorem jsRound_mono {a b : ℚ} (h : a ≤ b) : jsRound a ≤ jsRound b := by
  unfold jsRound
  rw [ratFloor_eq_floor, ratFloor_eq_floor]
  exact Int.floor_mono (by linarith)

theorem jsRound_lt_of_add_one {a b : ℚ} (h : a + 1 ≤ b) : jsRound a < jsRound b := by
  unfold jsRound
  rw [ratFloor_eq_floor, ratFloor_eq_floor]
  have h0 : ⌊a + 1/2 + 1⌋ ≤ ⌊b + 1/2⌋ := Int.floor_mono (by linarith)
  rw [Int.floor_add_one] at h0
  omega

/-! ## Structure of the PDF page loop -/

theorem extractPdfPagesLoop_eq (numPages : ℕ) (pages : List (List PdfTextItem)) :
    ∀ start : ℕ,
      extractPdfPagesLoop numPages start pages =
        (pages.map pdfPageText,
         (List.range' start pages.length).map (fun p =>
            ⟨pdfPageStatus p numPages, pdfProgressValue p numPages⟩)) := by
  induction pages with
  | nil => intro start; rfl
  | cons items rest ih =>
    intro start
    simp [extractPdfPagesLoop, ih (start + 1), List.range'_succ]

theorem extractTextFromPdf_eq (pages : List (List PdfTextItem)) :
    extractTextFromPdf pages =
      (jsTrim (String.intercalate "\n\n" (pages.map pdfPageText)),
       (List.range' 1 pages.length).map (fun p =>
          ⟨pdfPageStatus p pages.length, pdfProgressValue p pages.length⟩)) := by
  unfold extractTextFromPdf
  rw [extractPdfPagesLoop_eq]

theorem chain'_range'_of (r : ℕ → ℕ → Prop) :
    ∀ n s : ℕ, (∀ m, s ≤ m → m + 1 < s + n → r m (m + 1)) →
      List.Chain' r (List.range' s n) := by
  intro n
  induction n with
  | zero => intro s _; simp
  | succ k ih =>
    intro s h
    rw [List.range'_succ]
    cases k with
    | zero => simp
    | succ k2 =>
      rw [List.range'_succ, List.chain'_cons]
      refine ⟨h s le_rfl (by omega), ?_⟩
      have h2 := ih (s + 1) (fun m hm hlt => h m (by omega) (by omega))
      rw [List.range'_succ] at h2
      exact h2

theorem pdfProgressValue_mono (n : ℕ) {p q : ℕ} (h : p ≤ q) :
    pdfProgressValue p n ≤ pdfProgressValue q n := by
  unfold pdfProgressValue
  apply jsRound_mono
  rcases Nat.eq_zero_or_pos n with h0 | h0
  · subst h0; push_cast; rw [div_zero, div_zero]
  · have hn : (0 : ℚ) < (n : ℚ) := by exact_mod_cast h0
    have hpq : (p : ℚ) ≤ (q : ℚ) := by exact_mod_cast h
    gcongr

theorem pdfProgressValue_strict {n : ℕ} (h0 : 0 < n) (h100 : n ≤ 100) (p : ℕ) :
    pdfProgressValue p n < pdfProgressValue (p + 1) n := by
  unfold pdfProgressValue
  apply jsRound_lt_of_add_one
  have hn : (0 : ℚ) < (n : ℚ) := by exact_mod_cast h0
  have h1 : (1 : ℚ) ≤ 100 / (n : ℚ) := by
    rw [le_div_iff₀ hn]
    have : (n : ℚ) ≤ 100 := by exact_mod_cast h100
    linarith
  have h2 : ((p : ℚ) + 1) / (n : ℚ) * 100 = (p : ℚ) / (n : ℚ) * 100 + 100 / (n : ℚ) := by
    field_simp
    ring
  push_cast
  rw [h2]
  linarith

theorem pdfProgressValue_full {n : ℕ} (h0 : 0 < n) : pdfProgressValue n n = 100 := by
  unfold pdfProgressValue
  have hn : ((n : ℚ)) ≠ 0 := by
    have : (0 : ℚ) < (n : ℚ) := by exact_mod_cast h0
    linarith
  rw [div_self hn, one_mul]
  unfold jsRound
  rw [ratFloor_eq_floor]
  norm_num

/-! ## Claim C1 -/

/-- Claim C1: for every buffer and incoming extraction result, an empty
incoming text signals the "no text extracted" outcome and leaves the buffer
unchanged; otherwise, if the trimmed buffer is empty the new buffer is the
incoming text verbatim, else it is the trimmed old buffer, a blank line,
then the incoming text; in particular `append "" "" = ""`,
`append "" "hello" = "hello"` and `append "hello" "world" = "hello\n\nworld"`. -/
theorem appendExtractedText_spec :
    (∀ buffer : String,
      appendExtractedText buffer "" = none ∧ applyAppend buffer "" = buffer) ∧
    (∀ buffer incoming : String, incoming ≠ "" → jsTrim buffer = "" →
      appendExtractedText buffer incoming = some incoming) ∧
    (∀ buffer incoming : String, incoming ≠ "" → jsTrim buffer ≠ "" →
      appendExtractedText buffer incoming = some (jsTrim buffer ++ "\n\n" ++ incoming)) ∧
    applyAppend "" "" = "" ∧
    applyAppend "" "hello" = "hello" ∧
    applyAppend "hello" "world" = "hello\n\nworld" := by
  refine ⟨fun buffer => ?_, fun b i h1 h2 => ?_, fun b i h1 h2 => ?_,
    by decide, by decide, by decide⟩
  · simp [appendExtractedText, applyAppend]
  · simp [appendExtractedText, h1, h2]
  · simp [appendExtractedText, h1, h2]

/-- Witness for C1 at `buffer = "hello"`, `incoming = "world"`. -/
theorem appendExtractedText_spec_inst :
    appendExtractedText "hello" "world" = some (jsTrim "hello" ++ "\n\n" ++ "world") :=
  appendExtractedText_spec.2.2.1 "hello" "world" (by decide) (by decide)

/-! ## Claim C5 -/

/-- Claim C5: a draft zone with width or height below `MIN_ZONE_SIZE = 1` is
silently dropped by the commit path and the registry is unchanged; a draft
meeting the minimum size is appended at the end of the ordered list under a
fresh id that no registered zone carries. -/
theorem addZone_spec :
    (∀ (s : OcrZoneRegistry) (draft : NormalizedOcrZone),
      draft.width < 1 ∨ draft.height < 1 → handlePointerUpCommit s draft = s) ∧
    (∀ (s : OcrZoneRegistry) (draft : NormalizedOcrZone),
      1 ≤ draft.width → 1 ≤ draft.height →
      (handlePointerUpCommit s draft).zones = s.zones ++ [(s.nextId, toFixedZone draft)] ∧
      (handlePointerUpCommit s draft).nextId = s.nextId + 1) ∧
    (∀ (s : OcrZoneRegistry) (draft : NormalizedOcrZone),
      (∀ p ∈ s.zones, p.1 < s.nextId) →
      s.nextId ∉ s.zones.map Prod.fst ∧
      (∀ p ∈ (handlePointerUpCommit s draft).zones,
        p.1 < (handlePointerUpCommit s draft).nextId)) := by
  refine ⟨fun s draft h => ?_, fun s draft h1 h2 => ?_, fun s draft hinv => ?_⟩
  · unfold handlePointerUpCommit commitDraft MIN_ZONE_SIZE
    rw [if_neg]
    rcases h with h | h
    · exact fun hc => absurd hc.1 (not_le.mpr h)
    · exact fun hc => absurd hc.2 (not_le.mpr h)
  · unfold handlePointerUpCommit commitDraft MIN_ZONE_SIZE handleAddZone
    rw [if_pos ⟨h1, h2⟩]
    exact ⟨rfl, rfl⟩
  · constructor
    · intro hmem
      obtain ⟨p, hp, hfst⟩ := List.mem_map.mp hmem
      exact absurd hfst (Nat.ne_of_lt (hinv p hp))
    · unfold handlePointerUpCommit commitDraft handleAddZone
      by_cases hc : MIN_ZONE_SIZE ≤ draft.width ∧ MIN_ZONE_SIZE ≤ draft.height
      · rw [if_pos hc]
        intro p hp
        rcases List.mem_append.mp hp with hold | hnew
        · exact Nat.lt_succ_of_lt (hinv p hold)
        · have hp2 : p = (s.nextId, toFixedZone draft) := by simpa using hnew
          subst hp2
          exact Nat.lt_succ_self _
      · rw [if_neg hc]
        exact hinv

/-- Witness for C5: a `0.5`-percent-wide draft is dropped, a `5 × 5` draft is
appended under the fresh id. -/
theorem addZone_spec_inst :
    handlePointerUpCommit ⟨[], 0⟩ ⟨0, 0, 1/2, 5⟩ = ⟨[], 0⟩ ∧
    (handlePointerUpCommit ⟨[], 0⟩ ⟨0, 0, 5, 5⟩).zones =
      [] ++ [(0, toFixedZone ⟨0, 0, 5, 5⟩)] :=
  ⟨addZone_spec.1 ⟨[], 0⟩ ⟨0, 0, 1/2, 5⟩ (Or.inl (by norm_num)),
   (addZone_spec.2.1 ⟨[], 0⟩ ⟨0, 0, 5, 5⟩ (by norm_num) (by norm_num)).1⟩

/-! ## Claim C10 -/

/-- Claim C10: `removeZone id` removes exactly the entries carrying `id`,
keeps every other zone and their relative order (and the id supply), is a
no-op when no zone carries `id`, raises nothing, and is idempotent. -/
theorem removeZone_spec :
    (∀ (s : OcrZoneRegistry) (id : ℕ),
      (handleRemoveZone s id).zones.Sublist s.zones ∧
      (handleRemoveZone s id).nextId = s.nextId) ∧
    (∀ (s : OcrZoneRegistry) (id : ℕ) (p : ℕ × NormalizedOcrZone),
      p ∈ s.zones → p.1 ≠ id → p ∈ (handleRemoveZone s id).zones) ∧
    (∀ (s : OcrZoneRegistry) (id : ℕ) (p : ℕ × NormalizedOcrZone),
      p ∈ (handleRemoveZone s id).zones → p.1 ≠ id) ∧
    (∀ (s : OcrZoneRegistry) (id : ℕ),
      id ∉ s.zones.map Prod.fst → handleRemoveZone s id = s) ∧
    (∀ (s : OcrZoneRegistry) (id : ℕ),
      handleRemoveZone (handleRemoveZone s id) id = handleRemoveZone s id) := by
  refine ⟨fun s id => ⟨List.filter_sublist _, rfl⟩,
    fun s id p hp hne => ?_, fun s id p hp => ?_, fun s id hid => ?_, fun s id => ?_⟩
  · exact List.mem_filter.mpr ⟨hp, bne_iff_ne.mpr hne⟩
  · exact bne_iff_ne.mp (List.mem_filter.mp hp).2
  · obtain ⟨zones, nextId⟩ := s
    unfold handleRemoveZone
    simp only [OcrZoneRegistry.mk.injEq, and_true]
    apply List.filter_eq_self.mpr
    intro p hp
    apply bne_iff_ne.mpr
    intro hfst
    exact hid (List.mem_map.mpr ⟨p, hp, hfst⟩)
  · unfold handleRemoveZone
    simp only [OcrZoneRegistry.mk.injEq, and_true]
    apply List.filter_eq_self.mpr
    intro p hp
    exact (List.mem_filter.mp hp).2

/-- Witness for C10: removing the absent id `7` from a one-zone registry is
a no-op and keeps the registered zone. -/
theorem removeZone_spec_inst :
    handleRemoveZone ⟨[(0, ⟨0, 0, 5, 5⟩)], 1⟩ 7 = ⟨[(0, ⟨0, 0, 5, 5⟩)], 1⟩ ∧
    ((0, ⟨0, 0, 5, 5⟩) : ℕ × NormalizedOcrZone) ∈
      (handleRemoveZone ⟨[(0, ⟨0, 0, 5, 5⟩)], 1⟩ 7).zones :=
  ⟨removeZone_spec.2.2.2.1 ⟨[(0, ⟨0, 0, 5, 5⟩)], 1⟩ 7 (by decide),
   removeZone_spec.2.1 ⟨[(0, ⟨0, 0, 5, 5⟩)], 1⟩ 7 (0, ⟨0, 0, 5, 5⟩)
     (by decide) (by decide)⟩

/-! ## Claim C2 -/

/-- Claim C2 (amended): document extraction processes the pages in order,
each page's text is its fragments joined by a single space then trimmed,
after each page the reported progress is `round(page/total*100)` — a
non-decreasing sequence ending at 100, strictly increasing whenever the
document has at most 100 pages (for a 3-page source: 33, 67, 100) — and the
final text is the page texts joined by blank lines and trimmed. -/
theorem extractTextFromPdf_spec (pages : List (List PdfTextItem)) :
    ((extractTextFromPdf pages).2 =
      (List.range' 1 pages.length).map (fun p =>
        ⟨pdfPageStatus p pages.length, pdfProgressValue p pages.length⟩)) ∧
    List.Chain' (· ≤ ·)
      ((extractTextFromPdf pages).2.map ExtractionProgress.progress) ∧
    (pages ≠ [] →
      ((extractTextFromPdf pages).2.map ExtractionProgress.progress).getLast? =
        some 100) ∧
    (pages.length ≤ 100 →
      List.Chain' (· < ·)
        ((extractTextFromPdf pages).2.map ExtractionProgress.progress)) ∧
    (extractTextFromPdf pages).1 =
      jsTrim (String.intercalate "\n\n" (pages.map pdfPageText)) ∧
    pdfPageText [⟨some " Hello"⟩, ⟨some "world "⟩] = "Hello world" ∧
    (extractTextFromPdf [[⟨some "a"⟩], [⟨some "b"⟩], [⟨some "c"⟩]]).2.map
      ExtractionProgress.progress = [33, 67, 100] ∧
    (extractTextFromPdf [[⟨some "a"⟩], [⟨some "b"⟩], [⟨some "c"⟩]]).1 =
      "a\n\nb\n\nc" := by
  have hsnd : (extractTextFromPdf pages).2 =
      (List.range' 1 pages.length).map (fun p =>
        ⟨pdfPageStatus p pages.length, pdfProgressValue p pages.length⟩) := by
    rw [extractTextFromPdf_eq]
  have hvals : (extractTextFromPdf pages).2.map ExtractionProgress.progress =
      (List.range' 1 pages.length).map (fun p => pdfProgressValue p pages.length) := by
    rw [hsnd, List.map_map]
    rfl
  refine ⟨hsnd, ?_, ?_, ?_, by rw [extractTextFromPdf_eq], by decide, by decide, by decide⟩
  · rw [hvals]
    rw [List.chain'_map]
    exact chain'_range'_of _ _ _ (fun m _ _ => pdfProgressValue_mono _ (Nat.le_succ m))
  · intro hne
    obtain ⟨k, hk⟩ : ∃ k, pages.length = k + 1 := by
      cases pages with
      | nil => exact absurd rfl hne
      | cons a l => exact ⟨l.length, rfl⟩
    rw [hvals, hk, List.range'_1_concat, List.map_append]
    simp only [List.map_cons, List.map_nil]
    rw [List.getLast?_concat]
    have h1k : 1 + k = k + 1 := Nat.add_comm 1 k
    rw [h1k, pdfProgressValue_full (Nat.succ_pos k)]
  · intro h100
    rw [hvals, List.chain'_map]
    refine chain'_range'_of _ _ _ (fun m hm hlt => ?_)
    exact pdfProgressValue_strict (by omega) h100 m

/-- Witness for C2 at the concrete 3-page document. -/
theorem extractTextFromPdf_spec_inst :
    ((extractTextFromPdf [[⟨some "a"⟩], [⟨some "b"⟩], [⟨some "c"⟩]]).2.map
      ExtractionProgress.progress).getLast? = some 100 ∧
    List.Chain' (· < ·)
      ((extractTextFromPdf [[⟨some "a"⟩], [⟨some "b"⟩], [⟨some "c"⟩]]).2.map
        ExtractionProgress.progress) :=
  ⟨(extractTextFromPdf_spec [[⟨some "a"⟩], [⟨some "b"⟩], [⟨some "c"⟩]]).2.2.1
     (by simp),
   (extractTextFromPdf_spec [[⟨some "a"⟩], [⟨some "b"⟩], [⟨some "c"⟩]]).2.2.2.1
     (by simp)⟩

set_option maxRecDepth 4000 in
/-- Counterexample to C2 as stated: for a 101-page document the rounded
progress repeats (pages 50 and 51 both report 50), so the progress values
are not strictly increasing. -/
theorem extractTextFromPdf_progress_cex :
    ¬ List.Chain' (· < ·)
      ((extractTextFromPdf (List.replicate 101 [])).2.map
        ExtractionProgress.progress) := by
  intro h
  have h49 := List.chain'_iff_get.mp h 49 (by decide)
  revert h49
  decide

/-! ## Claim C3 -/

theorem runZoneLoop_map_ok (ts : List String) :
    ∀ n : ℕ, runZoneLoop n (ts.map Except.ok) =
      Except.ok ((ts.enumFrom n).filterMap (fun p =>
        if p.2 = "" then none else some (zoneLabel p.1 p.2))) := by
  induction ts with
  | nil => intro n; rfl
  | cons t rest ih =>
    intro n
    by_cases h : t = "" <;>
      simp [runZoneLoop, ih (n + 1), List.enumFrom_cons, List.filterMap_cons, h]

theorem runZoneLoop_all_empty {ts : List String} (hall : ∀ t ∈ ts, t = "") :
    ∀ n : ℕ, runZoneLoop n (ts.map Except.ok) = Except.ok [] := by
  induction ts with
  | nil => intro n; rfl
  | cons t rest ih =>
    intro n
    have ht : t = "" := hall t (List.mem_cons_self t rest)
    have ihr := ih (fun x hx => hall x (List.mem_cons_of_mem t hx)) (n + 1)
    simp [runZoneLoop, ihr, ht]

/-- Claim C3: zone-sequence extraction labels the `i`-th zone's non-empty
text as `พื้นที่ i: text` ("Area i: text"), joins the labeled fragments with
blank lines and trims; for zones yielding `""` and `"text"` the result is
exactly the second zone's labeled fragment with no stray separator; when
every zone yields `""` the outcome is "nothing found", not an error. -/
theorem extractSelectedZones_spec :
    (∀ ts : List String, runZoneLoop 1 (ts.map Except.ok) =
      Except.ok ((ts.enumFrom 1).filterMap (fun p =>
        if p.2 = "" then none else some (zoneLabel p.1 p.2)))) ∧
    (∀ buffer : String,
      handleExtractSelectedZones true buffer [Except.ok "", Except.ok "text"] =
        (.extracted (zoneLabel 2 "text"), applyAppend buffer (zoneLabel 2 "text"))) ∧
    zoneLabel 2 "text" = "พื้นที่ 2: text" ∧
    (∀ (buffer : String) (ts : List String), ts ≠ [] → (∀ t ∈ ts, t = "") →
      handleExtractSelectedZones true buffer (ts.map Except.ok) =
        (.noTextFound, buffer)) := by
  refine ⟨fun ts => runZoneLoop_map_ok ts 1, fun buffer => rfl, by decide,
    fun buffer ts hne hall => ?_⟩
  cases ts with
  | nil => exact absurd rfl hne
  | cons t rest =>
    have hz := runZoneLoop_all_empty hall 1
    simp only [List.map_cons] at hz
    simp only [List.map_cons, handleExtractSelectedZones, hz]
    rfl

/-- Witness for C3: the two-zone job over `""` and `"text"`, and an all-empty
two-zone job. -/
theorem extractSelectedZones_spec_inst :
    handleExtractSelectedZones true "buf" [Except.ok "", Except.ok "text"] =
      (.extracted (zoneLabel 2 "text"), applyAppend "buf" (zoneLabel 2 "text")) ∧
    handleExtractSelectedZones true "buf" (["", ""].map Except.ok) =
      (.noTextFound, "buf") :=
  ⟨extractSelectedZones_spec.2.1 "buf",
   extractSelectedZones_spec.2.2.2 "buf" ["", ""] (by simp) (by simp)⟩

/-! ## Claim C4 -/

theorem extractPdfPagesLoopE_error {e : String} :
    ∀ responses : List (Except String (List PdfTextItem)),
      Except.error e ∈ responses →
      ∃ e2, extractPdfPagesLoopE responses = .error e2 := by
  intro responses
  induction responses with
  | nil => intro h; simp at h
  | cons r rest ih =>
    intro h
    cases r with
    | error e1 => exact ⟨e1, rfl⟩
    | ok items =>
      have hmem : Except.error e ∈ rest := by
        rcases List.mem_cons.mp h with h1 | h2
        · exact absurd h1 (by simp)
        · exact h2
      obtain ⟨e2, he⟩ := ih hmem
      exact ⟨e2, by simp [extractPdfPagesLoopE, he]⟩

theorem runZoneLoop_error {e : String} :
    ∀ responses : List (Except String String),
      Except.error e ∈ responses →
      ∀ n, ∃ e2, runZoneLoop n responses = .error e2 := by
  intro responses
  induction responses with
  | nil => intro h; simp at h
  | cons r rest ih =>
    intro h n
    cases r with
    | error e1 => exact ⟨e1, rfl⟩
    | ok t =>
      have hmem : Except.error e ∈ rest := by
        rcases List.mem_cons.mp h with h1 | h2
        · exact absurd h1 (by simp)
        · exact h2
      obtain ⟨e2, he⟩ := ih hmem (n + 1)
      exact ⟨e2, by simp [runZoneLoop, he]⟩

/-- Claim C4: a parsing- or recognition-service failure on any page or zone
aborts the job as a single recoverable error; text already produced by
earlier completed pages/zones is discarded and the accumulated buffer is
left unchanged. -/
theorem serviceFailure_spec :
    (∀ (buffer e : String) (responses : List (Except String (List PdfTextItem))),
      Except.error e ∈ responses →
      (∃ e2, extractTextFromPdfE responses = .error e2) ∧
      handlePdfUpload buffer responses = buffer) ∧
    (∀ (buffer e : String) (responses : List (Except String String)),
      Except.error e ∈ responses →
      ∃ e2, handleExtractSelectedZones true buffer responses =
        (.serviceFailed e2, buffer)) := by
  constructor
  · intro buffer e responses h
    obtain ⟨e2, he⟩ := extractPdfPagesLoopE_error responses h
    have hE : extractTextFromPdfE responses = .error e2 := by
      simp [extractTextFromPdfE, he]
    exact ⟨⟨e2, hE⟩, by simp [handlePdfUpload, hE]⟩
  · intro buffer e responses h
    obtain ⟨e2, he⟩ := runZoneLoop_error responses h 1
    refine ⟨e2, ?_⟩
    have hne : responses.isEmpty = false := by
      cases responses
      · simp at h
      · rfl
    simp [handleExtractSelectedZones, hne, he]

/-- Witness for C4: a two-page job whose second page fails and a two-zone
job whose second zone fails, both leaving the buffer `"buf"` unchanged. -/
theorem serviceFailure_spec_inst :
    ((∃ e2, extractTextFromPdfE [Except.ok [⟨some "a"⟩], Except.error "boom"] =
        .error e2) ∧
      handlePdfUpload "buf" [Except.ok [⟨some "a"⟩], Except.error "boom"] = "buf") ∧
    (∃ e2, handleExtractSelectedZones true "buf"
        [Except.ok "hi", Except.error "boom"] = (.serviceFailed e2, "buf")) :=
  ⟨serviceFailure_spec.1 "buf" "boom" [Except.ok [⟨some "a"⟩], Except.error "boom"]
     (by simp),
   serviceFailure_spec.2 "buf" "boom" [Except.ok "hi", Except.error "boom"]
     (by simp)⟩

/-! ## Claim C6 -/

/-- Counterexample to C6 as stated: a zero-page document is not rejected —
document extraction returns the empty string as a normal `ok` result, and
the upload handler treats it as the "no text found" outcome. -/
theorem zeroPagePdf_cex :
    extractTextFromPdfE [] = Except.ok "" ∧
    handlePdfUpload "buffer" [] = "buffer" :=
  ⟨rfl, rfl⟩

/-- Claim C6 (amended): a zone-sequence request with zero zones, or with the
image not yet decoded, is rejected as a precondition failure before any
recognition response is consumed; a zero-page PDF is not rejected — the
document flow returns the empty string as a normal empty result. -/
theorem precondition_spec :
    (∀ buffer : String,
      handleExtractSelectedZones true buffer [] = (.precondFailed, buffer)) ∧
    (∀ (buffer : String) (responses : List (Except String String)),
      handleExtractSelectedZones false buffer responses = (.precondFailed, buffer)) ∧
    extractTextFromPdfE [] = Except.ok "" :=
  ⟨fun _ => rfl, fun _ _ => rfl, rfl⟩

/-! ## Rasterizer bounds -/

theorem extractZoneCrop_some {w h : ℕ} {zone : NormalizedOcrZone} {c : ZoneCrop}
    (hc : extractZoneCrop w h zone = some c) :
    w ≠ 0 ∧ h ≠ 0 ∧
    c = ⟨jsRound ((normalizeZone zone).x / 100 * w),
         jsRound ((normalizeZone zone).y / 100 * h),
         min (max 1 (jsRound ((normalizeZone zone).width / 100 * w)))
             (max 1 ((w : ℤ) - jsRound ((normalizeZone zone).x / 100 * w))),
         min (max 1 (jsRound ((normalizeZone zone).height / 100 * h)))
             (max 1 ((h : ℤ) - jsRound ((normalizeZone zone).y / 100 * h)))⟩ := by
  unfold extractZoneCrop at hc
  by_cases hz : w = 0 ∨ h = 0
  · rw [if_pos hz] at hc
    exact absurd hc (by simp)
  · rw [if_neg hz] at hc
    push_neg at hz
    dsimp only at hc
    exact ⟨hz.1, hz.2, (Option.some.inj hc).symm⟩

theorem normalizeZone_bounds (zone : NormalizedOcrZone) :
    0 ≤ (normalizeZone zone).x ∧ (normalizeZone zone).x ≤ 100 ∧
    0 ≤ (normalizeZone zone).y ∧ (normalizeZone zone).y ≤ 100 ∧
    0 ≤ (normalizeZone zone).width ∧
    (normalizeZone zone).width ≤ 100 - (normalizeZone zone).x ∧
    0 ≤ (normalizeZone zone).height ∧
    (normalizeZone zone).height ≤ 100 - (normalizeZone zone).y := by
  unfold normalizeZone
  dsimp only
  exact ⟨clampPercentage_nonneg _, clampPercentage_le_100 _,
    clampPercentage_nonneg _, clampPercentage_le_100 _,
    le_min (clampPercentage_nonneg _) (by linarith [clampPercentage_le_100 zone.x]),
    min_le_right _ _,
    le_min (clampPercentage_nonneg _) (by linarith [clampPercentage_le_100 zone.y]),
    min_le_right _ _⟩

theorem jsRoundPx_nonneg {v : ℚ} (hv : 0 ≤ v) (n : ℕ) : 0 ≤ jsRound (v / 100 * n) :=
  jsRound_nonneg (mul_nonneg (div_nonneg hv (by norm_num)) (Nat.cast_nonneg n))

theorem jsRoundPx_le {v : ℚ} (_hv0 : 0 ≤ v) (hv : v ≤ 100) (n : ℕ) :
    jsRound (v / 100 * n) ≤ (n : ℤ) := by
  apply jsRound_le_int
  have h1 : v / 100 ≤ 1 := (div_le_one (by norm_num)).mpr hv
  have h2 : v / 100 * (n : ℚ) ≤ 1 * (n : ℚ) :=
    mul_le_mul_of_nonneg_right h1 (Nat.cast_nonneg n)
  push_cast
  linarith

theorem crop_sum_bound {sx req n : ℤ} (hsx : sx ≤ n) :
    (sx < n → sx + min (max 1 req) (max 1 (n - sx)) ≤ n) ∧
    sx + min (max 1 req) (max 1 (n - sx)) ≤ n + 1 := by
  omega

theorem one_le_min_max (a b : ℤ) : 1 ≤ min (max 1 a) (max 1 b) :=
  le_min (le_max_left _ _) (le_max_left _ _)

/-! ## Claim C7 -/

/-- Claim C7: for every zone and image of positive natural size, the crop's
output size per axis is the minimum of the requested pixel size
`max 1 (round(size/100 * natural))` and the available extent
`max 1 (natural - startPx)` — `size` and `startPx` being those of the
clamped zone the code computes; the rasterizer never throws for
out-of-bound requested sizes, and the `60 × 60` zone at `(50, 50)` over a
`200 × 100` image yields a crop no larger than `100 × 50`. -/
theorem zoneCrop_size_spec :
    (∀ (w h : ℕ) (zone : NormalizedOcrZone), 0 < w → 0 < h →
      ∃ c : ZoneCrop, extractZoneCrop w h zone = some c ∧
        c.outputWidth =
          min (max 1 (jsRound ((normalizeZone zone).width / 100 * w)))
              (max 1 ((w : ℤ) - c.startX)) ∧
        c.outputHeight =
          min (max 1 (jsRound ((normalizeZone zone).height / 100 * h)))
              (max 1 ((h : ℤ) - c.startY))) ∧
    extractZoneCrop 200 100 ⟨50, 50, 60, 60⟩ = some ⟨100, 50, 100, 50⟩ ∧
    (∀ c : ZoneCrop, extractZoneCrop 200 100 ⟨50, 50, 60, 60⟩ = some c →
      c.outputWidth ≤ 100 ∧ c.outputHeight ≤ 50) := by
  refine ⟨fun w h zone hw hh => ?_, by decide, fun c hc => ?_⟩
  · unfold extractZoneCrop
    rw [if_neg (by omega)]
    exact ⟨_, rfl, rfl, rfl⟩
  · have h2 : extractZoneCrop 200 100 ⟨50, 50, 60, 60⟩ =
        some (⟨100, 50, 100, 50⟩ : ZoneCrop) := by decide
    rw [h2] at hc
    have h3 := Option.some.inj hc
    subst h3
    decide

/-- Witness for C7 at the `200 × 100` image and the `60 × 60` zone at
`(50, 50)`. -/
theorem zoneCrop_size_spec_inst :
    ∃ c : ZoneCrop, extractZoneCrop 200 100 ⟨50, 50, 60, 60⟩ = some c ∧
      c.outputWidth =
        min (max 1 (jsRound ((normalizeZone ⟨50, 50, 60, 60⟩).width / 100 * (200 : ℕ))))
            (max 1 (((200 : ℕ) : ℤ) - c.startX)) ∧
      c.outputHeight =
        min (max 1 (jsRound ((normalizeZone ⟨50, 50, 60, 60⟩).height / 100 * (100 : ℕ))))
            (max 1 (((100 : ℕ) : ℤ) - c.startY)) :=
  zoneCrop_size_spec.1 200 100 ⟨50, 50, 60, 60⟩ (by decide) (by decide)

/-! ## Claim C8 -/

/-- Counterexample to C8 as stated: a zone whose origin sits exactly at the
image edge (`x = 100` percent over a `10 × 10` image) produces the crop
`startX = 10`, `outputWidth = 1`, whose source rectangle ends at
`11 > 10` — one pixel beyond the image. -/
theorem zoneCrop_bounds_cex :
    extractZoneCrop 10 10 ⟨100, 0, 10, 50⟩ = some ⟨10, 0, 1, 5⟩ ∧
    ¬ ((10 : ℤ) + 1 ≤ (10 : ℤ)) := by
  exact ⟨by decide, by decide⟩

/-- Claim C8 (amended): the crop's pixel origin always lies within
`[0, natural]` per axis, and whenever `startPx < natural` the source
rectangle stays inside the image (`startPx + outputSize ≤ natural`); in the
degenerate `startPx = natural` edge case the 1-pixel floor makes the source
rectangle end at `natural + 1`, so in general
`startPx + outputSize ≤ natural + 1`. -/
theorem zoneCrop_bounds_spec :
    ∀ (w h : ℕ) (zone : NormalizedOcrZone) (c : ZoneCrop),
      extractZoneCrop w h zone = some c →
      (0 ≤ c.startX ∧ c.startX ≤ (w : ℤ) ∧ 0 ≤ c.startY ∧ c.startY ≤ (h : ℤ)) ∧
      (1 ≤ c.outputWidth ∧ 1 ≤ c.outputHeight) ∧
      (c.startX < (w : ℤ) → c.startX + c.outputWidth ≤ (w : ℤ)) ∧
      (c.startY < (h : ℤ) → c.startY + c.outputHeight ≤ (h : ℤ)) ∧
      c.startX + c.outputWidth ≤ (w : ℤ) + 1 ∧
      c.startY + c.outputHeight ≤ (h : ℤ) + 1 := by
  intro w h zone c hc
  obtain ⟨hw, hh, hceq⟩ := extractZoneCrop_some hc
  obtain ⟨hx0, hx1, hy0, hy1, -, -, -, -⟩ := normalizeZone_bounds zone
  subst hceq
  dsimp only
  have hsxw := jsRoundPx_le hx0 hx1 w
  have hsyh := jsRoundPx_le hy0 hy1 h
  exact ⟨⟨jsRoundPx_nonneg hx0 w, hsxw, jsRoundPx_nonneg hy0 h, hsyh⟩,
    ⟨one_le_min_max _ _, one_le_min_max _ _⟩,
    (crop_sum_bound hsxw).1, (crop_sum_bound hsyh).1,
    (crop_sum_bound hsxw).2, (crop_sum_bound hsyh).2⟩

/-- Witness for C8 at the edge-case crop of the `10 × 10` image. -/
theorem zoneCrop_bounds_spec_inst :
    ((⟨10, 0, 1, 5⟩ : ZoneCrop).startX + (⟨10, 0, 1, 5⟩ : ZoneCrop).outputWidth ≤
      ((10 : ℕ) : ℤ) + 1) ∧
    ((⟨10, 0, 1, 5⟩ : ZoneCrop).startY + (⟨10, 0, 1, 5⟩ : ZoneCrop).outputHeight ≤
      ((10 : ℕ) : ℤ)) :=
  ⟨(zoneCrop_bounds_spec 10 10 ⟨100, 0, 10, 50⟩ ⟨10, 0, 1, 5⟩ (by decide)).2.2.2.2.1,
   (zoneCrop_bounds_spec 10 10 ⟨100, 0, 10, 50⟩ ⟨10, 0, 1, 5⟩ (by decide)).2.2.2.1
     (by decide)⟩

/-! ## Claim C9 -/

/-- Counterexample to C9 as stated: pressing at `(49.875, 0)` and releasing
at `(100, 50)` commits the zone `(49.88, 0, 50.13, 50)` — the two-decimal
rounding at commit pushes `x + width` to `100.01 > 100`. -/
theorem pointerZone_commit_cex :
    commitDraft (pointerDraft (399/8, 0) (100, 50)) =
      some ⟨4988/100, 0, 5013/100, 50⟩ ∧
    ¬ ((4988 : ℚ)/100 + 5013/100 ≤ 100) := by
  exact ⟨by decide, by decide⟩

/-- Claim C9 (amended): for every pointer press/current pair, the draft zone
has all coordinates in `[0, 100]` with `x + width ≤ 100` and
`y + height ≤ 100` regardless of drag direction; the committed zone keeps
every coordinate in `[0, 100]`, but the two-decimal rounding at commit can
push each of `x + width` and `y + height` up to `100 + 1/100`. -/
theorem pointerZone_bounds_spec :
    ∀ press move : ℚ × ℚ,
      (0 ≤ (pointerDraft press move).x ∧ (pointerDraft press move).x ≤ 100 ∧
       0 ≤ (pointerDraft press move).y ∧ (pointerDraft press move).y ≤ 100 ∧
       0 ≤ (pointerDraft press move).width ∧ (pointerDraft press move).width ≤ 100 ∧
       0 ≤ (pointerDraft press move).height ∧ (pointerDraft press move).height ≤ 100 ∧
       (pointerDraft press move).x + (pointerDraft press move).width ≤ 100 ∧
       (pointerDraft press move).y + (pointerDraft press move).height ≤ 100) ∧
      (∀ z : NormalizedOcrZone, commitDraft (pointerDraft press move) = some z →
        0 ≤ z.x ∧ z.x ≤ 100 ∧ 0 ≤ z.y ∧ z.y ≤ 100 ∧
        0 ≤ z.width ∧ z.width ≤ 100 ∧ 0 ≤ z.height ∧ z.height ≤ 100 ∧
        z.x + z.width ≤ 100 + 1/100 ∧ z.y + z.height ≤ 100 + 1/100) := by
  intro press move
  dsimp only [pointerDraft, handlePointerMoveRect, getRelativePosition]
  have ha0 := clamp_nonneg press.1
  have ha1 := clamp_le_100 press.1
  have hb0 := clamp_nonneg move.1
  have hb1 := clamp_le_100 move.1
  have hc0 := clamp_nonneg press.2
  have hc1 := clamp_le_100 press.2
  have hd0 := clamp_nonneg move.2
  have hd1 := clamp_le_100 move.2
  have hxw := min_add_jsAbs_sub (clamp press.1) (clamp move.1)
  have hyh := min_add_jsAbs_sub (clamp press.2) (clamp move.2)
  have hw0 := jsAbs_nonneg (clamp move.1 - clamp press.1)
  have hh0 := jsAbs_nonneg (clamp move.2 - clamp press.2)
  have hw1 : jsAbs (clamp move.1 - clamp press.1) ≤ 100 :=
    jsAbs_le (by linarith) (by linarith)
  have hh1 : jsAbs (clamp move.2 - clamp press.2) ≤ 100 :=
    jsAbs_le (by linarith) (by linarith)
  have hsum1 : min (clamp press.1) (clamp move.1) +
      jsAbs (clamp move.1 - clamp press.1) ≤ 100 := by
    rw [hxw]; exact max_le ha1 hb1
  have hsum2 : min (clamp press.2) (clamp move.2) +
      jsAbs (clamp move.2 - clamp press.2) ≤ 100 := by
    rw [hyh]; exact max_le hc1 hd1
  constructor
  · exact ⟨le_min ha0 hb0, le_trans (min_le_left _ _) ha1, le_min hc0 hd0,
      le_trans (min_le_left _ _) hc1, hw0, hw1, hh0, hh1, hsum1, hsum2⟩
  · intro z hz
    unfold commitDraft at hz
    split at hz
    case isFalse => exact absurd hz (by simp)
    case isTrue hcond =>
      have hzeq := Option.some.inj hz
      subst hzeq
      dsimp only [toFixedZone]
      have t1 := toFixed2_le_add (min (clamp press.1) (clamp move.1))
      have t2 := toFixed2_le_add (jsAbs (clamp move.1 - clamp press.1))
      have t3 := toFixed2_le_add (min (clamp press.2) (clamp move.2))
      have t4 := toFixed2_le_add (jsAbs (clamp move.2 - clamp press.2))
      exact ⟨toFixed2_nonneg (le_min ha0 hb0),
        toFixed2_le_100 (le_trans (min_le_left _ _) ha1),
        toFixed2_nonneg (le_min hc0 hd0),
        toFixed2_le_100 (le_trans (min_le_left _ _) hc1),
        toFixed2_nonneg hw0, toFixed2_le_100 hw1,
        toFixed2_nonneg hh0, toFixed2_le_100 hh1,
        by linarith, by linarith⟩

/-- Witness for C9: a drag from `(0, 0)` to `(50, 50)` commits `(0, 0, 50, 50)`
and its `x + width` stays within the rounded bound. -/
theorem pointerZone_bounds_spec_inst :
    (⟨0, 0, 50, 50⟩ : NormalizedOcrZone).x + (⟨0, 0, 50, 50⟩ : NormalizedOcrZone).width ≤
      100 + 1/100 :=
  ((pointerZone_bounds_spec (0, 0) (50, 50)).2 ⟨0, 0, 50, 50⟩
    (by decide)).2.2.2.2.2.2.2.2.1

end Eunoia
